import Mathlib

/-!
Verification of the takopi-slack-plugin core subsystems against their
natural-language specification.

The development shallowly embeds three subsystems:
* the thread state store (`src/takopi_slack_plugin/thread_sessions.py`),
* the delivery outbox (`takopi_slack_plugin/outbox.py`; that module is not
  part of the provided sources, so it is modelled from the spec, with the
  replacement and error semantics pinned by the repository's own tests in
  `tests/test_slack_outbox.py`),
* the socket-mode connection loop (`src/takopi_slack_plugin/bridge.py`).

Python dictionaries are embedded as association lists with
replace-or-append update (matching dict insertion-order semantics for
lookup and update), floats used as timestamps are embedded as exact numerals (integers for the
clock arithmetic of the outbox, rationals where they are only stored),
and fallible asynchronous actions are embedded as `Except` values.
-/

namespace TakopiSlack

/-! ## Association-list embedding of Python `dict[str, str]` -/

abbrev StrDict := List (String × String)

/-- Embedding of `d.get(k)` for a `dict[str, str]`. -/
def dictGet : StrDict → String → Option String
  | [], _ => none
  | (k', v) :: rest, k => if k' = k then some v else dictGet rest k

/-- Embedding of `d[k] = v`: replace in place, else append (dict insertion order). -/
def dictSet : StrDict → String → String → StrDict
  | [], k, v => [(k, v)]
  | (k', v') :: rest, k, v =>
      if k' = k then (k', v) :: rest else (k', v') :: dictSet rest k v

/-- Embedding of `d.pop(k, None)`: drop the binding for `k` if present. -/
def dictRemove : StrDict → String → StrDict
  | [], _ => []
  | (k', v') :: rest, k =>
      if k' = k then rest else (k', v') :: dictRemove rest k

/-! ## Thread state store data model (`thread_sessions.py`) -/

/-- Embedding of `_WorktreeRef`. -/
structure WorktreeRef where
  project : String
  branch : String
deriving DecidableEq, Repr

/-- Embedding of `_ReminderState`. -/
structure ReminderState where
  sent_at : Option Rat := none
deriving DecidableEq, Repr

/-- Embedding of `_ThreadSession` (one record of the persisted document). -/
structure ThreadSession where
  resumes : StrDict := []
  context : Option StrDict := none
  model_overrides : Option StrDict := none
  reasoning_overrides : Option StrDict := none
  default_engine : Option String := none
  last_activity_at : Option Rat := none
  owner_user_id : Option String := none
  worktree : Option WorktreeRef := none
  reminder : Option ReminderState := none
deriving DecidableEq, Repr

/-- Embedding of `takopi.api.RunContext` as used by the store: a project
name with an optional branch. -/
structure RunContext where
  project : String
  branch : Option String := none
deriving DecidableEq, Repr

/-- Embedding of `takopi.api.ResumeToken`. -/
structure ResumeToken where
  engine : String
  value : String
deriving DecidableEq, Repr

/-- Embedding of `WorktreeSnapshot`. -/
structure WorktreeSnapshot where
  project : String
  branch : String
deriving DecidableEq, Repr

/-- Embedding of `ReminderSnapshot`. -/
structure ReminderSnapshot where
  sent_at : Option Rat
deriving DecidableEq, Repr

/-- Embedding of `ThreadSnapshot`. -/
structure ThreadSnapshot where
  channel_id : String
  thread_id : String
  last_activity_at : Option Rat
  owner_user_id : Option String
  worktree : Option WorktreeSnapshot
  reminder : Option ReminderSnapshot
deriving DecidableEq, Repr

/-- The in-memory `threads` mapping of `_ThreadSessionsState`. -/
abbrev Threads := List (String × ThreadSession)

/-- Embedding of `self._state.threads.get(key)`. -/
def threadsGet : Threads → String → Option ThreadSession
  | [], _ => none
  | (k', s) :: rest, k => if k' = k then some s else threadsGet rest k

/-- Embedding of `self._state.threads[key] = session` (replace or append). -/
def threadsSet : Threads → String → ThreadSession → Threads
  | [], k, s => [(k, s)]
  | (k', s') :: rest, k, s =>
      if k' = k then (k', s) :: rest else (k', s') :: threadsSet rest k s

/-- Embedding of `_thread_key`. -/
def threadKey (channelId threadId : String) : String :=
  channelId ++ ":" ++ threadId

/-- Effect of one store operation: the returned value, the resulting
in-memory `threads` mapping, and whether `_save_locked` (persistence of the
document) was invoked.  The `_reload_locked_if_needed` call that each
operation performs under the lock is the identity in the absence of an
external file modification, which is the setting of the claims below. -/
structure StoreEffect (α : Type) where
  value : α
  threads : Threads
  saved : Bool

/-- Embedding of `_get_or_create` as a pure read of the base session; the
callers write back the mutated session via `threadsSet`. -/
def getOrCreate (ts : Threads) (key : String) : ThreadSession :=
  (threadsGet ts key).getD {}

/-- Embedding of `SlackThreadSessionStore.get_resume`. -/
def get_resume (ts : Threads) (channelId threadId engine : String) :
    StoreEffect (Option ResumeToken) :=
  let key := threadKey channelId threadId
  match threadsGet ts key with
  | none => ⟨none, ts, false⟩
  | some s =>
      match dictGet s.resumes engine with
      | none => ⟨none, ts, false⟩
      | some v =>
          if v = "" then ⟨none, ts, false⟩
          else ⟨some ⟨engine, v⟩, ts, false⟩

/-- Embedding of `SlackThreadSessionStore.get_context`. -/
def get_context (ts : Threads) (channelId threadId : String) :
    StoreEffect (Option RunContext) :=
  let key := threadKey channelId threadId
  match threadsGet ts key with
  | none => ⟨none, ts, false⟩
  | some s =>
      match s.context with
      | none => ⟨none, ts, false⟩
      | some ctx =>
          match dictGet ctx "project" with
          | none => ⟨none, ts, false⟩
          | some p =>
              if p = "" then ⟨none, ts, false⟩
              else ⟨some ⟨p, dictGet ctx "branch"⟩, ts, false⟩

/-- Embedding of `SlackThreadSessionStore.set_context`.  A `None` branch or
an empty-string branch is not stored (`if context.branch:`). -/
def set_context (ts : Threads) (channelId threadId : String)
    (ctx : Option RunContext) : StoreEffect Unit :=
  let key := threadKey channelId threadId
  let s := getOrCreate ts key
  let s' :=
    match ctx with
    | none => { s with context := none }
    | some rc =>
        let payload :=
          match rc.branch with
          | some b =>
              if b = "" then [("project", rc.project)]
              else [("project", rc.project), ("branch", b)]
          | none => [("project", rc.project)]
        { s with context := some payload }
  ⟨(), threadsSet ts key s', true⟩

/-- Embedding of `SlackThreadSessionStore.get_default_engine`. -/
def get_default_engine (ts : Threads) (channelId threadId : String) :
    StoreEffect (Option String) :=
  let key := threadKey channelId threadId
  match threadsGet ts key with
  | none => ⟨none, ts, false⟩
  | some s => ⟨s.default_engine, ts, false⟩

/-- The two per-engine override fields handled generically by
`_get_override` and `_set_override` via `getattr`/`setattr`. -/
inductive OverrideField
  | model
  | reasoning
deriving DecidableEq, Repr

/-- Embedding of `getattr(session, field)` for an override field. -/
def overrideField (s : ThreadSession) : OverrideField → Option StrDict
  | .model => s.model_overrides
  | .reasoning => s.reasoning_overrides

/-- Embedding of `setattr(session, field, v)` for an override field. -/
def setOverrideFieldVal (s : ThreadSession) :
    OverrideField → Option StrDict → ThreadSession
  | .model, v => { s with model_overrides := v }
  | .reasoning, v => { s with reasoning_overrides := v }

/-- Embedding of `_normalize_override`: strip surrounding whitespace, and
collapse a `None` or whitespace-only value to `None`. -/
def normalizeOverride : Option String → Option String
  | none => none
  | some v => if v.trim = "" then none else some v.trim

/-- Embedding of `SlackThreadSessionStore._get_override`. -/
def get_override (ts : Threads) (channelId threadId engine : String)
    (f : OverrideField) : StoreEffect (Option String) :=
  let key := threadKey channelId threadId
  match threadsGet ts key with
  | none => ⟨none, ts, false⟩
  | some s =>
      match overrideField s f with
      | none => ⟨none, ts, false⟩
      | some ov => ⟨normalizeOverride (dictGet ov engine), ts, false⟩

/-- Embedding of `SlackThreadSessionStore._set_override`: a cleared entry
that empties the per-engine map stores the field as absent (`None`). -/
def set_override (ts : Threads) (channelId threadId engine : String)
    (value : Option String) (f : OverrideField) : StoreEffect Unit :=
  let key := threadKey channelId threadId
  let normalized := normalizeOverride value
  let s := getOrCreate ts key
  let ov := (overrideField s f).getD []
  let s' :=
    match normalized with
    | none =>
        let ov' := dictRemove ov engine
        if ov' = [] then setOverrideFieldVal s f none
        else setOverrideFieldVal s f (some ov')
    | some v => setOverrideFieldVal s f (some (dictSet ov engine v))
  ⟨(), threadsSet ts key s', true⟩

/-- Embedding of `SlackThreadSessionStore.get_model_override`. -/
def get_model_override (ts : Threads) (channelId threadId engine : String) :
    StoreEffect (Option String) :=
  get_override ts channelId threadId engine .model

/-- Embedding of `SlackThreadSessionStore.get_reasoning_override`. -/
def get_reasoning_override (ts : Threads) (channelId threadId engine : String) :
    StoreEffect (Option String) :=
  get_override ts channelId threadId engine .reasoning

/-- Embedding of `SlackThreadSessionStore.set_model_override`. -/
def set_model_override (ts : Threads) (channelId threadId engine : String)
    (model : Option String) : StoreEffect Unit :=
  set_override ts channelId threadId engine model .model

/-- Embedding of `SlackThreadSessionStore.set_reasoning_override`. -/
def set_reasoning_override (ts : Threads) (channelId threadId engine : String)
    (level : Option String) : StoreEffect Unit :=
  set_override ts channelId threadId engine level .reasoning

/-- Embedding of `_snapshot_from_session`. -/
def snapshotFromSession (channelId threadId : String) (s : ThreadSession) :
    ThreadSnapshot :=
  { channel_id := channelId
    thread_id := threadId
    last_activity_at := s.last_activity_at
    owner_user_id := s.owner_user_id
    worktree := s.worktree.map fun w => ⟨w.project, w.branch⟩
    reminder := s.reminder.map fun r => ⟨r.sent_at⟩ }

/-- Embedding of `SlackThreadSessionStore.get_thread_snapshot`. -/
def get_thread_snapshot (ts : Threads) (channelId threadId : String) :
    StoreEffect (Option ThreadSnapshot) :=
  let key := threadKey channelId threadId
  match threadsGet ts key with
  | none => ⟨none, ts, false⟩
  | some s => ⟨some (snapshotFromSession channelId threadId s), ts, false⟩

/-- The mapping returned by `SlackThreadSessionStore.get_state`, as a typed
record (`dict(x) if x else None` collapses empty mappings to `None`). -/
structure ThreadStateView where
  context : Option StrDict
  default_engine : Option String
  model_overrides : Option StrDict
  reasoning_overrides : Option StrDict
  resumes : Option StrDict
deriving DecidableEq, Repr

/-- Embedding of the `dict(x) if x else None` truthiness collapse. -/
def truthyDict : Option StrDict → Option StrDict
  | none => none
  | some l => if l = [] then none else some l

/-- Embedding of `SlackThreadSessionStore.get_state`. -/
def get_state (ts : Threads) (channelId threadId : String) :
    StoreEffect (Option ThreadStateView) :=
  let key := threadKey channelId threadId
  match threadsGet ts key with
  | none => ⟨none, ts, false⟩
  | some s =>
      ⟨some
        { context := truthyDict s.context
          default_engine := s.default_engine
          model_overrides := truthyDict s.model_overrides
          reasoning_overrides := truthyDict s.reasoning_overrides
          resumes := if s.resumes = [] then none else some s.resumes }, ts, false⟩

/-! ## Basic lemmas about the dictionary embedding -/

theorem threadsGet_threadsSet_self (ts : Threads) (k : String) (s : ThreadSession) :
    threadsGet (threadsSet ts k s) k = some s := by
  induction ts with
  | nil => simp [threadsSet, threadsGet]
  | cons hd tl ih =>
      by_cases h : hd.1 = k
      · simp [threadsSet, threadsGet, h]
      · simpa [threadsSet, threadsGet, h] using ih

theorem overrideField_setOverrideFieldVal_self (s : ThreadSession)
    (f : OverrideField) (v : Option StrDict) :
    overrideField (setOverrideFieldVal s f v) f = v := by
  cases f <;> rfl

theorem overrideField_default (f : OverrideField) :
    overrideField {} f = none := by
  cases f <;> rfl

/-! ## Claims C8, C9, C10: thread state store -/

/-- C8: for every thread key and every valid `(project, branch)` pair
(non-empty project, and a branch that is either absent or non-empty),
`set_context` followed by `get_context` on the same thread returns the same
pair, and after `set_context` with `None`, `get_context` returns `None`. -/
theorem thread_context_round_trip (ts : Threads) (c t p : String)
    (br : Option String) (hp : p ≠ "") (hbr : ∀ b, br = some b → b ≠ "") :
    (get_context (set_context ts c t (some ⟨p, br⟩)).threads c t).value
        = some ⟨p, br⟩ ∧
    (get_context (set_context ts c t none).threads c t).value = none := by
  constructor
  · cases br with
    | none =>
        simp [set_context, get_context, threadsGet_threadsSet_self, dictGet, hp]
    | some b =>
        have hb : b ≠ "" := hbr b rfl
        simp [set_context, get_context, threadsGet_threadsSet_self, dictGet, hp, hb]
  · simp [set_context, get_context, threadsGet_threadsSet_self]

/-- C8 witness: round trip at a concrete store, thread and context. -/
theorem thread_context_round_trip_witness :
    (get_context (set_context [] "C1" "T1"
          (some ⟨"takopi", some "main"⟩)).threads "C1" "T1").value
        = some ⟨"takopi", some "main"⟩ ∧
    (get_context (set_context [] "C1" "T1" none).threads "C1" "T1").value
        = none :=
  thread_context_round_trip [] "C1" "T1" "takopi" (some "main")
    (by decide) (by intro b hb; cases hb; decide)

theorem getOrCreate_threadsSet_self (ts : Threads) (k : String)
    (s : ThreadSession) : getOrCreate (threadsSet ts k s) k = s := by
  simp [getOrCreate, threadsGet_threadsSet_self]

/-- C9: for a thread whose model-override (or reasoning-override) field is
absent, setting a per-engine override and then clearing that same override
leaves the field stored as absent (`None`), not as an empty mapping. -/
theorem override_clear_collapses (ts : Threads) (c t engine v : String)
    (f : OverrideField)
    (habs : ∀ s, threadsGet ts (threadKey c t) = some s → overrideField s f = none) :
    (threadsGet
        (set_override
          (set_override ts c t engine (some v) f).threads
          c t engine none f).threads
        (threadKey c t)).map (fun s => overrideField s f) = some none := by
  have hbase : overrideField (getOrCreate ts (threadKey c t)) f = none := by
    unfold getOrCreate
    cases hget : threadsGet ts (threadKey c t) with
    | none => simpa using overrideField_default f
    | some s0 => simpa using habs s0 hget
  by_cases hv : v.trim = "" <;>
    simp [set_override, normalizeOverride, hv, hbase,
      getOrCreate_threadsSet_self, overrideField_setOverrideFieldVal_self,
      threadsGet_threadsSet_self, dictRemove, dictSet]

/-- C9 witness: set-then-clear of a model override on an empty store leaves
the field absent. -/
theorem override_clear_collapses_witness :
    (threadsGet
        (set_override
          (set_override [] "C1" "T1" "codex" (some "gpt-5") .model).threads
          "C1" "T1" "codex" none .model).threads
        (threadKey "C1" "T1")).map (fun s => overrideField s .model)
      = some none :=
  override_clear_collapses [] "C1" "T1" "codex" "gpt-5" .model
    (by intro s hs; cases hs)

/-- C10: every read operation of the store (`get_resume`, `get_context`,
`get_default_engine`, `get_model_override`, `get_reasoning_override`,
`get_thread_snapshot`, `get_state`) on a thread key with no existing record
returns `None`, leaves the `threads` mapping unchanged, creates no session
record, and never persists the document. -/
theorem reads_on_missing_thread_are_pure (ts : Threads) (c t engine : String)
    (h : threadsGet ts (threadKey c t) = none) :
    get_resume ts c t engine = ⟨none, ts, false⟩ ∧
    get_context ts c t = ⟨none, ts, false⟩ ∧
    get_default_engine ts c t = ⟨none, ts, false⟩ ∧
    get_model_override ts c t engine = ⟨none, ts, false⟩ ∧
    get_reasoning_override ts c t engine = ⟨none, ts, false⟩ ∧
    get_thread_snapshot ts c t = ⟨none, ts, false⟩ ∧
    get_state ts c t = ⟨none, ts, false⟩ := by
  refine ⟨?_, ?_, ?_, ?_, ?_, ?_, ?_⟩ <;>
    simp [get_resume, get_context, get_default_engine, get_model_override,
      get_reasoning_override, get_override, get_thread_snapshot, get_state, h]

/-- C10 witness: the reads on an empty store at a concrete thread key. -/
theorem reads_on_missing_thread_are_pure_witness :
    get_resume [] "C1" "T1" "codex" = ⟨none, [], false⟩ ∧
    get_context [] "C1" "T1" = ⟨none, [], false⟩ ∧
    get_default_engine [] "C1" "T1" = ⟨none, [], false⟩ ∧
    get_model_override [] "C1" "T1" "codex" = ⟨none, [], false⟩ ∧
    get_reasoning_override [] "C1" "T1" "codex" = ⟨none, [], false⟩ ∧
    get_thread_snapshot [] "C1" "T1" = ⟨none, [], false⟩ ∧
    get_state [] "C1" "T1" = ⟨none, [], false⟩ :=
  reads_on_missing_thread_are_pure [] "C1" "T1" "codex" rfl

/-! ## Delivery outbox

The module `takopi_slack_plugin/outbox.py` is imported by `bridge.py` and
exercised by `tests/test_slack_outbox.py` but is not among the provided
sources, so the outbox is modelled from the spec.  Where the repository's
tests pin a behaviour through the outbox's internals (`_pending`,
`_pick_locked`, `_execute_op`, `OutboxOp.set_result`, replacement
resolving the old operation with `None` and retaining the original
`queued_at`), the model follows the tests. -/

/-- Modelled from the spec: the priority constants of the missing
`outbox.py` module.  The spec fixes only `send/delete priority < edit
priority` and explicitly does not assume `delete < send`. -/
def SEND_PRIORITY : Int := 0

/-- Modelled from the spec: delete shares the send priority class
(send/delete are dispatched ahead of edits). -/
def DELETE_PRIORITY : Int := 0

/-- Modelled from the spec: edits sort after sends and deletes. -/
def EDIT_PRIORITY : Int := 1

deriving instance DecidableEq for Except

/-- Modelled from the spec: `OutboxOp` of the missing `outbox.py`.  The
zero-argument asynchronous `execute` action is embedded by its outcome:
either a result or a raised exception. -/
structure OutboxOp where
  execute : Except String String
  priority : Int
  queued_at : Int
  channel_id : String
deriving DecidableEq, Repr

/-- Modelled from the spec: the observable state of a `SlackOutbox`.
`pending` is the keyed pending map (dict insertion order), `executed` the
operations run by the worker in execution order, `resolved` the
`set_result` deliveries to waiters in order, `errors` the invocations of
the configured error hook, `lastSent` the per-destination pacing
timestamps, and `now` the current clock reading. -/
structure OutboxState where
  pending : List (String × OutboxOp)
  executed : List OutboxOp
  resolved : List (OutboxOp × Option String)
  errors : List (OutboxOp × String)
  lastSent : List (String × Int)
  now : Int
deriving DecidableEq, Repr

/-- A freshly constructed outbox. -/
def emptyOutbox : OutboxState := ⟨[], [], [], [], [], 0⟩

/-- Lookup in the keyed pending map. -/
def lookupPending : List (String × OutboxOp) → String → Option OutboxOp
  | [], _ => none
  | (k', op) :: rest, k => if k' = k then some op else lookupPending rest k

/-- Replace the pending operation stored under a key, in place. -/
def replacePending : List (String × OutboxOp) → String → OutboxOp →
    List (String × OutboxOp)
  | [], k, op => [(k, op)]
  | (k', op') :: rest, k, op =>
      if k' = k then (k', op) :: rest else (k', op') :: replacePending rest k op

/-- Drop a key from the pending map (`self._pending.pop(key, None)`). -/
def removePending : List (String × OutboxOp) → String → List (String × OutboxOp)
  | [], _ => []
  | (k', op') :: rest, k =>
      if k' = k then rest else (k', op') :: removePending rest k

/-- Lookup of a destination's last-sent timestamp. -/
def rateGet : List (String × Int) → String → Option Int
  | [], _ => none
  | (c', v) :: rest, c => if c' = c then some v else rateGet rest c

/-- Update of a destination's last-sent timestamp. -/
def rateSet : List (String × Int) → String → Int → List (String × Int)
  | [], c, v => [(c, v)]
  | (c', v') :: rest, c, v =>
      if c' = c then (c', v) :: rest else (c', v') :: rateSet rest c v

/-- Modelled from the spec: `enqueue(key, op, ...)` inserts the operation,
replacing any pending operation under the same key.  Per
`test_outbox_replaces_pending_without_worker`, the replaced operation's
waiters are resolved with `None` at replacement time and the replacement
retains the original operation's `queued_at` while adopting the new
operation's `execute`. -/
def enqueue (st : OutboxState) (key : String) (op : OutboxOp) : OutboxState :=
  match lookupPending st.pending key with
  | some old =>
      { st with
          pending := replacePending st.pending key
            { op with queued_at := old.queued_at }
          resolved := st.resolved ++ [(old, none)] }
  | none => { st with pending := st.pending ++ [(key, op)] }

/-- Modelled from the spec: a destination is eligible when it is not
within its pacing interval (no last-sent timestamp, or
`last_sent + interval ≤ now`). -/
def eligible (iv : String → Int) (last : List (String × Int)) (now : Int)
    (op : OutboxOp) : Bool :=
  match rateGet last op.channel_id with
  | none => true
  | some tPrev => decide (tPrev + iv op.channel_id ≤ now)

/-- Strict `(priority, queued_at)` lexicographic order between
operations; lower sorts first. -/
def opBefore (a b : OutboxOp) : Bool :=
  decide (a.priority < b.priority ∨
    (a.priority = b.priority ∧ a.queued_at < b.queued_at))

/-- Non-strict `(priority, queued_at)` lexicographic order. -/
def opLexLe (a b : OutboxOp) : Prop :=
  a.priority < b.priority ∨
    (a.priority = b.priority ∧ a.queued_at ≤ b.queued_at)

/-- Modelled from the spec: `_pick_locked` selects, among the queued
operations whose destination is eligible, the one with lowest
`(priority, queued_at)`; ties are broken in favour of the earlier entry in
iteration order. -/
def pickLocked (iv : String → Int) (last : List (String × Int)) (now : Int) :
    List (String × OutboxOp) → Option (String × OutboxOp)
  | [] => none
  | kv :: rest =>
      match pickLocked iv last now rest with
      | none => if eligible iv last now kv.2 then some kv else none
      | some b =>
          if eligible iv last now kv.2 then
            if opBefore b.2 kv.2 then some b else some kv
          else some b

/-- Modelled from the spec: `_execute_op` awaits the operation's
`execute`, catching any exception; on failure it invokes the configured
error hook with the failing operation and the exception and yields `None`.
The first component is the value delivered to waiters, the second the
error-hook invocations. -/
def executeOp (op : OutboxOp) : Option String × List (OutboxOp × String) :=
  match op.execute with
  | .ok r => (some r, [])
  | .error e => (none, [(op, e)])

/-- The value `_execute_op` delivers to the operation's waiters. -/
def execResult (op : OutboxOp) : Option String := (executeOp op).1

/-- The error-hook invocations produced by `_execute_op`. -/
def execErrors (op : OutboxOp) : List (OutboxOp × String) := (executeOp op).2

/-- One worker step once an operation has been picked: pop it from the
pending map, execute it, deliver the result to its waiters, and record the
destination's last-sent timestamp. -/
def drainStepState (st : OutboxState) (k : String) (op : OutboxOp) :
    OutboxState :=
  { st with
      pending := removePending st.pending k
      executed := st.executed ++ [op]
      resolved := st.resolved ++ [(op, execResult op)]
      errors := st.errors ++ execErrors op
      lastSent := rateSet st.lastSent op.channel_id st.now }

/-- Fuelled worker loop: repeatedly pick and execute until nothing is
eligible. -/
def drainAux (iv : String → Int) : Nat → OutboxState → OutboxState
  | 0, st => st
  | fuel + 1, st =>
      match pickLocked iv st.lastSent st.now st.pending with
      | none => st
      | some (k, op) => drainAux iv fuel (drainStepState st k op)

/-- Modelled from the spec: drain the queue, as the test helper `drain`
does, running the worker until no operation is eligible. -/
def drain (iv : String → Int) (st : OutboxState) : OutboxState :=
  drainAux iv st.pending.length st

/-- The value a `wait=True` waiter on the given operation observes: the
result delivered with the operation's `set_result`. -/
def waiterResult (st : OutboxState) (op : OutboxOp) : Option (Option String) :=
  (st.resolved.find? fun p => decide (p.1 = op)).map Prod.snd

/-! ## Outbox ordering lemmas -/

theorem opBefore_true_iff (a b : OutboxOp) :
    opBefore a b = true ↔
      (a.priority < b.priority ∨
        (a.priority = b.priority ∧ a.queued_at < b.queued_at)) := by
  simp [opBefore]

theorem opBefore_self_eq_false (a : OutboxOp) : opBefore a a = false := by
  rw [Bool.eq_false_iff, Ne, opBefore_true_iff]
  omega

theorem opBefore_asymm (a b : OutboxOp) (h : opBefore a b = true) :
    opBefore b a = false := by
  rw [opBefore_true_iff] at h
  rw [Bool.eq_false_iff, Ne, opBefore_true_iff]
  omega

theorem opLexLe_of_opBefore_eq_false (a b : OutboxOp)
    (h : opBefore b a = false) : opLexLe a b := by
  have h' : ¬ (b.priority < a.priority ∨
      (b.priority = a.priority ∧ b.queued_at < a.queued_at)) := by
    simpa [opBefore] using h
  unfold opLexLe
  omega

theorem opBefore_of_opBefore_of_opLexLe (a b c : OutboxOp)
    (hab : opBefore a b = true) (hbc : opLexLe b c) : opBefore a c = true := by
  rw [opBefore_true_iff] at hab ⊢
  unfold opLexLe at hbc
  omega

theorem pickLocked_mem (iv : String → Int) (last : List (String × Int))
    (now : Int) :
    ∀ (l : List (String × OutboxOp)) (kv : String × OutboxOp),
      pickLocked iv last now l = some kv → kv ∈ l := by
  intro l
  induction l with
  | nil => intro kv h; exact Option.noConfusion h
  | cons hd tl ih =>
      intro kv h
      simp only [pickLocked] at h
      cases hpick : pickLocked iv last now tl with
      | none =>
          simp only [hpick] at h
          by_cases he : eligible iv last now hd.2 = true
          · rw [if_pos he] at h
            injection h with h
            subst h
            exact List.mem_cons_self _ _
          · rw [if_neg he] at h
            exact Option.noConfusion h
      | some b =>
          simp only [hpick] at h
          by_cases he : eligible iv last now hd.2 = true
          · rw [if_pos he] at h
            by_cases hb : opBefore b.2 hd.2 = true
            · rw [if_pos hb] at h
              injection h with h
              subst h
              exact List.mem_cons_of_mem _ (ih _ hpick)
            · rw [if_neg hb] at h
              injection h with h
              subst h
              exact List.mem_cons_self _ _
          · rw [if_neg he] at h
            injection h with h
            subst h
            exact List.mem_cons_of_mem _ (ih _ hpick)

theorem pickLocked_eq_none_imp (iv : String → Int) (last : List (String × Int))
    (now : Int) (l : List (String × OutboxOp))
    (helig : ∀ x ∈ l, eligible iv last now x.2 = true)
    (h : pickLocked iv last now l = none) : l = [] := by
  cases l with
  | nil => rfl
  | cons hd tl =>
      exfalso
      have he : eligible iv last now hd.2 = true :=
        helig hd (List.mem_cons_self _ _)
      simp only [pickLocked] at h
      cases hpick : pickLocked iv last now tl with
      | none =>
          simp only [hpick] at h
          rw [if_pos he] at h
          exact Option.noConfusion h
      | some b =>
          simp only [hpick] at h
          rw [if_pos he] at h
          by_cases hb : opBefore b.2 hd.2 = true
          · rw [if_pos hb] at h
            exact Option.noConfusion h
          · rw [if_neg hb] at h
            exact Option.noConfusion h

theorem pickLocked_min (iv : String → Int) (last : List (String × Int))
    (now : Int) :
    ∀ (l : List (String × OutboxOp)) (kv : String × OutboxOp),
      (∀ x ∈ l, eligible iv last now x.2 = true) →
      pickLocked iv last now l = some kv →
      ∀ x ∈ l, opBefore x.2 kv.2 = false := by
  intro l
  induction l with
  | nil => intro kv _ h; exact Option.noConfusion h
  | cons hd tl ih =>
      intro kv helig h
      have he : eligible iv last now hd.2 = true :=
        helig hd (List.mem_cons_self _ _)
      have helig' : ∀ x ∈ tl, eligible iv last now x.2 = true :=
        fun x hx => helig x (List.mem_cons_of_mem _ hx)
      simp only [pickLocked] at h
      cases hpick : pickLocked iv last now tl with
      | none =>
          have htl : tl = [] :=
            pickLocked_eq_none_imp iv last now tl helig' hpick
          simp only [hpick] at h
          rw [if_pos he] at h
          injection h with h
          subst h
          subst htl
          intro x hx
          rcases List.mem_cons.mp hx with rfl | hx2
          · exact opBefore_self_eq_false _
          · exact absurd hx2 (List.not_mem_nil _)
      | some b =>
          simp only [hpick] at h
          rw [if_pos he] at h
          have hmin := ih b helig' hpick
          by_cases hb : opBefore b.2 hd.2 = true
          · rw [if_pos hb] at h
            injection h with h
            subst h
            intro x hx
            rcases List.mem_cons.mp hx with rfl | hx2
            · exact opBefore_asymm _ _ hb
            · exact hmin x hx2
          · rw [if_neg hb] at h
            injection h with h
            subst h
            have hles : opLexLe hd.2 b.2 :=
              opLexLe_of_opBefore_eq_false _ _ (Bool.eq_false_iff.mpr hb)
            intro x hx
            rcases List.mem_cons.mp hx with rfl | hx2
            · exact opBefore_self_eq_false _
            · cases hxb : opBefore x.2 hd.2 with
              | false => rfl
              | true =>
                  exfalso
                  have hxbb : opBefore x.2 b.2 = true :=
                    opBefore_of_opBefore_of_opLexLe _ _ _ hxb hles
                  rw [hmin x hx2] at hxbb
                  exact Bool.noConfusion hxbb

theorem rateGet_mem :
    ∀ (l : List (String × Int)) (c : String) (v : Int),
      rateGet l c = some v → (c, v) ∈ l := by
  intro l
  induction l with
  | nil => intro c v h; exact Option.noConfusion h
  | cons hd tl ih =>
      intro c v h
      obtain ⟨c', v'⟩ := hd
      simp only [rateGet] at h
      by_cases hc : c' = c
      · rw [if_pos hc] at h
        injection h with h
        subst hc
        subst h
        exact List.mem_cons_self _ _
      · rw [if_neg hc] at h
        exact List.mem_cons_of_mem _ (ih c v h)

theorem rateSet_val_le :
    ∀ (l : List (String × Int)) (c : String) (v : Int),
      (∀ q ∈ l, q.2 ≤ v) → ∀ q ∈ rateSet l c v, q.2 ≤ v := by
  intro l
  induction l with
  | nil =>
      intro c v _ q hq
      simp only [rateSet, List.mem_singleton] at hq
      subst hq
      exact le_refl v
  | cons hd tl ih =>
      intro c v hl q hq
      obtain ⟨c', v'⟩ := hd
      simp only [rateSet] at hq
      by_cases hc : c' = c
      · rw [if_pos hc] at hq
        rcases List.mem_cons.mp hq with rfl | hq2
        · exact le_refl v
        · exact hl q (List.mem_cons_of_mem _ hq2)
      · rw [if_neg hc] at hq
        rcases List.mem_cons.mp hq with rfl | hq2
        · exact hl (c', v') (List.mem_cons_self _ _)
        · exact ih c v (fun x hx => hl x (List.mem_cons_of_mem _ hx)) q hq2

theorem removePending_subset :
    ∀ (l : List (String × OutboxOp)) (k : String),
      ∀ x ∈ removePending l k, x ∈ l := by
  intro l
  induction l with
  | nil => intro k x hx; exact absurd hx (List.not_mem_nil x)
  | cons hd tl ih =>
      intro k x hx
      obtain ⟨k', op'⟩ := hd
      simp only [removePending] at hx
      by_cases hc : k' = k
      · rw [if_pos hc] at hx
        exact List.mem_cons_of_mem _ hx
      · rw [if_neg hc] at hx
        rcases List.mem_cons.mp hx with rfl | hx2
        · exact List.mem_cons_self _ _
        · exact List.mem_cons_of_mem _ (ih k x hx2)

theorem eligible_of_zero_interval (iv : String → Int) (hiv : ∀ ch, iv ch = 0)
    (last : List (String × Int)) (now : Int) (hlast : ∀ q ∈ last, q.2 ≤ now)
    (op : OutboxOp) : eligible iv last now op = true := by
  unfold eligible
  split
  · rfl
  · next tPrev hget =>
      have htp := hlast _ (rateGet_mem last op.channel_id tPrev hget)
      rw [hiv]
      exact decide_eq_true (by omega)

theorem drainAux_pairwise (iv : String → Int) (hiv : ∀ ch, iv ch = 0) :
    ∀ (fuel : Nat) (st : OutboxState),
      (∀ q ∈ st.lastSent, q.2 ≤ st.now) →
      List.Pairwise opLexLe st.executed →
      (∀ e ∈ st.executed, ∀ p ∈ st.pending, opLexLe e p.2) →
      List.Pairwise opLexLe (drainAux iv fuel st).executed := by
  intro fuel
  induction fuel with
  | zero => intro st _ hexec _; exact hexec
  | succ n ih =>
      intro st hlast hexec hcross
      simp only [drainAux]
      cases hpick : pickLocked iv st.lastSent st.now st.pending with
      | none => exact hexec
      | some kv =>
          obtain ⟨k, op⟩ := kv
          have helig : ∀ x ∈ st.pending,
              eligible iv st.lastSent st.now x.2 = true :=
            fun x _ => eligible_of_zero_interval iv hiv _ _ hlast x.2
          have hmem := pickLocked_mem iv st.lastSent st.now st.pending _ hpick
          have hmin := pickLocked_min iv st.lastSent st.now st.pending _
            helig hpick
          apply ih
          · intro q hq
            simp only [drainStepState] at hq ⊢
            exact rateSet_val_le st.lastSent op.channel_id st.now hlast q hq
          · simp only [drainStepState]
            rw [List.pairwise_append]
            refine ⟨hexec, by simp, ?_⟩
            intro e he b hb
            rw [List.mem_singleton] at hb
            rw [hb]
            exact hcross e he (k, op) hmem
          · intro e he p hp
            simp only [drainStepState] at he hp
            have hp' := removePending_subset st.pending k p hp
            rcases List.mem_append.mp he with he1 | he2
            · exact hcross e he1 p hp'
            · rw [List.mem_singleton] at he2
              subst he2
              exact opLexLe_of_opBefore_eq_false _ _ (hmin p hp')

/-! ## Claims C1, C2, C5, C6: delivery outbox -/

/-- The edit operation of the C1 scenario (`priority = EDIT_PRIORITY`,
`queued_at = 2`). -/
def c1OpEdit : OutboxOp := ⟨.ok "edit", EDIT_PRIORITY, 2, "C1"⟩

/-- The late send operation of the C1 scenario (`queued_at = 2`). -/
def c1OpSendLate : OutboxOp := ⟨.ok "send-1", SEND_PRIORITY, 2, "C1"⟩

/-- The early send operation of the C1 scenario (`queued_at = 1`). -/
def c1OpSendEarly : OutboxOp := ⟨.ok "send-0", SEND_PRIORITY, 1, "C1"⟩

/-- The C1 scenario: the three operations enqueued in arrival order
`[edit@2, send@2, send@1]`, all targeting destination `"C1"`. -/
def c1Scenario : OutboxState :=
  enqueue (enqueue (enqueue emptyOutbox "op1" c1OpEdit) "op2" c1OpSendLate)
    "op3" c1OpSendEarly

/-- C1: with zero pacing interval, the outbox worker executes queued
operations in ascending `(priority, queued_at)` order — every
send/delete-priority operation before every edit-priority one, ties broken
by earliest `queued_at` — and on the concrete scenario
`[edit@2, send@2, send@1]` the execution order is
`[send@1, send@2, edit@2]`. -/
theorem outbox_priority_order :
    (∀ st : OutboxState, st.executed = [] →
        (∀ q ∈ st.lastSent, q.2 ≤ st.now) →
        List.Pairwise opLexLe ((drain (fun _ => 0) st).executed)) ∧
    (drain (fun _ => 0) c1Scenario).executed.map execResult
        = [some "send-0", some "send-1", some "edit"] := by
  constructor
  · intro st hexec hlast
    apply drainAux_pairwise (fun _ => 0) (fun _ => rfl)
    · exact hlast
    · rw [hexec]; exact List.Pairwise.nil
    · intro e he; rw [hexec] at he; exact absurd he (List.not_mem_nil e)
  · decide

/-- C1 witness: the general ordering statement applied to the concrete
scenario state. -/
theorem outbox_priority_order_witness :
    List.Pairwise opLexLe ((drain (fun _ => 0) c1Scenario).executed) :=
  outbox_priority_order.1 c1Scenario rfl (by intro q hq; cases hq)

/-- Two operations enqueued in sequence under the same key on a fresh
outbox. -/
def coalesceTwo (key : String) (opA opB : OutboxOp) : OutboxState :=
  enqueue (enqueue emptyOutbox key opA) key opB

/-- C2 counterexample: on the concrete pair of the repository's own
replacement test, the first (replaced) operation's waiters are resolved
with `None` at replacement time, while the single execution's result is
`some "second"` — so the replaced operation's waiters do not receive the
execution's result, refuting the claim as stated. -/
theorem coalescing_waiters_counterexample :
    waiterResult
        (drain (fun _ => 0)
          (coalesceTwo "dup" ⟨.ok "first", SEND_PRIORITY, 1, "C1"⟩
            ⟨.ok "second", SEND_PRIORITY, 2, "C1"⟩))
        ⟨.ok "first", SEND_PRIORITY, 1, "C1"⟩ = some none ∧
    (drain (fun _ => 0)
        (coalesceTwo "dup" ⟨.ok "first", SEND_PRIORITY, 1, "C1"⟩
          ⟨.ok "second", SEND_PRIORITY, 2, "C1"⟩)).executed.map execResult
        = [some "second"] ∧
    (none : Option String) ≠ some "second" := by
  refine ⟨by decide, by decide, by decide⟩

/-- C2 amended: enqueuing two operations under the same key on a fresh
outbox before either executes yields exactly one execution, using the
second operation's `execute` (with the first operation's `queued_at`); the
replacing operation's waiters receive that single execution's result, but
the replaced operation's waiters are resolved with `None` at replacement
time. -/
theorem coalescing_single_execution (key : String) (opA opB : OutboxOp) :
    (coalesceTwo key opA opB).resolved = [(opA, none)] ∧
    (coalesceTwo key opA opB).pending
        = [(key, { opB with queued_at := opA.queued_at })] ∧
    (drain (fun _ => 0) (coalesceTwo key opA opB)).executed
        = [{ opB with queued_at := opA.queued_at }] ∧
    (drain (fun _ => 0) (coalesceTwo key opA opB)).resolved
        = [(opA, none),
           ({ opB with queued_at := opA.queued_at }, execResult opB)] := by
  have hexecres : execResult { opB with queued_at := opA.queued_at }
      = execResult opB := by
    cases hcase : opB.execute <;> simp [execResult, executeOp, hcase]
  refine ⟨?_, ?_, ?_, ?_⟩ <;>
    simp [coalesceTwo, enqueue, emptyOutbox, lookupPending, replacePending,
      drain, drainAux, pickLocked, eligible, rateGet, drainStepState,
      removePending, hexecres]

/-- C5: when an operation's `execute` raises, the outbox catches the
exception, invokes the configured error hook with the failing operation
and the exception, resolves all of the operation's waiters with `None`,
and completes the drain normally (nothing is re-raised to the `enqueue`
caller, which observes the `None` result). -/
theorem outbox_error_handling (key : String) (op : OutboxOp) (e : String)
    (h : op.execute = .error e) :
    (drain (fun _ => 0) (enqueue emptyOutbox key op)).errors = [(op, e)] ∧
    (drain (fun _ => 0) (enqueue emptyOutbox key op)).resolved
        = [(op, none)] ∧
    (drain (fun _ => 0) (enqueue emptyOutbox key op)).executed = [op] := by
  have hpend : (enqueue emptyOutbox key op).pending = [(key, op)] := by
    simp [enqueue, emptyOutbox, lookupPending]
  refine ⟨?_, ?_, ?_⟩ <;>
    simp [drain, hpend, enqueue, emptyOutbox, lookupPending, drainAux,
      pickLocked, eligible, rateGet, drainStepState, removePending,
      execResult, execErrors, executeOp, h]

/-- C5 witness: the failing operation of `test_outbox_error_handler`
(`execute` raising `"nope"`). -/
theorem outbox_error_handling_witness :
    (drain (fun _ => 0)
        (enqueue emptyOutbox "op" ⟨.error "nope", SEND_PRIORITY, 1, "C1"⟩)).errors
        = [(⟨.error "nope", SEND_PRIORITY, 1, "C1"⟩, "nope")] ∧
    (drain (fun _ => 0)
        (enqueue emptyOutbox "op" ⟨.error "nope", SEND_PRIORITY, 1, "C1"⟩)).resolved
        = [(⟨.error "nope", SEND_PRIORITY, 1, "C1"⟩, none)] ∧
    (drain (fun _ => 0)
        (enqueue emptyOutbox "op" ⟨.error "nope", SEND_PRIORITY, 1, "C1"⟩)).executed
        = [⟨.error "nope", SEND_PRIORITY, 1, "C1"⟩] :=
  outbox_error_handling "op" ⟨.error "nope", SEND_PRIORITY, 1, "C1"⟩ "nope" rfl

/-- C6: enqueuing under a key that already holds a queued, not-yet-started
operation leaves an effective operation that keeps the original
operation's `queued_at` while adopting the new operation's `execute`. -/
theorem enqueue_replacement_keeps_queued_at (st : OutboxState)
    (key : String) (opOld opNew : OutboxOp)
    (h : lookupPending st.pending key = some opOld) :
    (lookupPending (enqueue st key opNew).pending key).map
        (fun o => (o.queued_at, o.execute))
      = some (opOld.queued_at, opNew.execute) := by
  have hrepl : ∀ (l : List (String × OutboxOp)) (op' : OutboxOp),
      (lookupPending l key).isSome →
      lookupPending (replacePending l key op') key = some op' := by
    intro l
    induction l with
    | nil => intro op' hsome; simp [lookupPending] at hsome
    | cons hd tl ih =>
        intro op' hsome
        by_cases hc : hd.1 = key
        · simp [replacePending, lookupPending, hc]
        · have h1 : replacePending (hd :: tl) key op'
              = hd :: replacePending tl key op' := by
            simp [replacePending, hc]
          have h2 : lookupPending (hd :: replacePending tl key op') key
              = lookupPending (replacePending tl key op') key := by
            simp [lookupPending, hc]
          have h3 : lookupPending (hd :: tl) key = lookupPending tl key := by
            simp [lookupPending, hc]
          rw [h1, h2]
          rw [h3] at hsome
          exact ih op' hsome
  simp only [enqueue, h]
  rw [hrepl st.pending _ (by simp [h])]
  rfl

/-- C6 witness: the replacement pair of
`test_outbox_replaces_pending_without_worker` (`queued_at` 1 then 2). -/
theorem enqueue_replacement_keeps_queued_at_witness :
    (lookupPending
        (enqueue (enqueue emptyOutbox "dup" ⟨.ok "", SEND_PRIORITY, 1, "C1"⟩)
          "dup" ⟨.ok "", SEND_PRIORITY, 2, "C1"⟩).pending "dup").map
        (fun o => (o.queued_at, o.execute))
      = some ((1 : Int), Except.ok "") :=
  enqueue_replacement_keeps_queued_at
    (enqueue emptyOutbox "dup" ⟨.ok "", SEND_PRIORITY, 1, "C1"⟩)
    "dup" ⟨.ok "", SEND_PRIORITY, 1, "C1"⟩ ⟨.ok "", SEND_PRIORITY, 2, "C1"⟩
    (by decide)

/-! ## Socket-mode connection loop (`bridge.py`)

The embedding covers the per-frame body of `_run_socket_loop`
(lines 2106-2184): the immediate acknowledgment of envelopes carrying a
non-empty `envelope_id`, the type-based routing that spawns handler tasks,
and the outer reconnect loop with its fixed backoff.  Decoded JSON values
are embedded as `JVal`; the regex-based `_strip_bot_mention` and the
string-coercion branch of `_coerce_socket_payload` (which call into
`re`/`json`/`urllib`) are abstracted as function parameters, and fields
that the Slack schema types as strings are read as absent when they hold a
non-string value. -/

/-- A decoded JSON value, as produced by `json.loads`. -/
inductive JVal where
  | jstr (s : String)
  | jint (n : Int)
  | jbool (b : Bool)
  | jnull
  | jobj (fields : List (String × JVal))
  | jarr (elems : List JVal)

/-- A decoded JSON object (the Python `dict`). -/
abbrev JObj := List (String × JVal)

/-- Embedding of `obj.get(key)` on a decoded JSON object. -/
def jget : JObj → String → Option JVal
  | [], _ => none
  | (k', v) :: rest, k => if k' = k then some v else jget rest k

/-- Read a field expected to be a string (`isinstance(x, str)` guards in
the source); non-string values yield `none`. -/
def asStr : Option JVal → Option String
  | some (.jstr s) => some s
  | _ => none

/-- Embedding of `SlackMessage` (`client.py`); `files` carries the raw
file entries and defaults to empty (the tests pass it explicitly,
`SlackMessage.from_api` leaves it at the default). -/
structure SlackMessage where
  ts : String
  text : Option String
  user : Option String
  bot_id : Option String
  subtype : Option String
  thread_ts : Option String
  files : List JVal := []

/-- Embedding of `SlackMessage.from_api`. -/
def fromApi (p : JObj) : SlackMessage :=
  { ts := (asStr (jget p "ts")).getD ""
    text := asStr (jget p "text")
    user := asStr (jget p "user")
    bot_id := asStr (jget p "bot_id")
    subtype := asStr (jget p "subtype")
    thread_ts := asStr (jget p "thread_ts")
    files := [] }

/-- Embedding of `_should_skip_message` (`bridge.py` lines 667-680). -/
def shouldSkipMessage (m : SlackMessage) (botUserId : Option String) : Bool :=
  if m.ts = "" then true
  else if m.subtype.elim false (fun st => decide (st ≠ "file_share")) then true
  else if m.bot_id.isSome then true
  else if m.user.isNone then true
  else if (match botUserId, m.user with
           | some b, some u => decide (u = b)
           | _, _ => false) then true
  else if m.text.elim true (fun t => decide (t.trim = "")) then m.files.isEmpty
  else false

/-- Embedding of `_coerce_socket_payload`: a dict payload is used as is; a
string payload goes through the JSON/form-decoding branch, abstracted as
`strCoerce`; anything else is rejected. -/
def coercePayload (strCoerce : String → Option JObj) :
    Option JVal → Option JObj
  | some (.jobj f) => some f
  | some (.jstr s) => strCoerce s
  | _ => none

/-- The three handler callables `_run_socket_loop` passes to
`tg.start_soon`: `_safe_handle_slack_message` for chat messages,
`_handle_slash_command` for slash commands, `_handle_interactive` for
interactive actions. -/
inductive HandlerKind where
  | safeMessage
  | slashCommand
  | interactive
deriving DecidableEq, Repr

/-- The externally observable actions of one iteration of the receive
loop, in order: sending an acknowledgment frame, breaking out to
reconnect on a `disconnect` envelope, or spawning a handler task. -/
inductive LoopAction where
  | ack (envelopeId : String)
  | disconnectBreak
  | spawn (k : HandlerKind)
deriving DecidableEq, Repr

/-- Embedding of the type-based routing of `_run_socket_loop`
(lines 2122-2184), after the acknowledgment step: `disconnect` breaks out,
`slash_commands`/`interactive` spawn their handler when the payload
coerces, `events_api` runs the message filter chain and spawns
`_safe_handle_slack_message`, anything else is skipped. -/
def routeEnvelope (strip : String → String)
    (strCoerce : String → Option JObj) (chan : String)
    (botUserId : Option String) (env : JObj) : List LoopAction :=
  let msgType := asStr (jget env "type")
  if msgType = some "disconnect" then [.disconnectBreak]
  else if msgType = some "slash_commands" then
    match coercePayload strCoerce (jget env "payload") with
    | some _ => [.spawn .slashCommand]
    | none => []
  else if msgType = some "interactive" then
    match coercePayload strCoerce (jget env "payload") with
    | some _ => [.spawn .interactive]
    | none => []
  else if msgType ≠ some "events_api" then []
  else
    match jget env "payload" with
    | some (.jobj p) =>
        (match jget p "event" with
         | some (.jobj ev) =>
             let eventType := asStr (jget ev "type")
             if eventType ≠ some "message" ∧ eventType ≠ some "app_mention"
             then []
             else if asStr (jget ev "channel") ≠ some chan then []
             else
               let msg := fromApi ev
               if shouldSkipMessage msg botUserId then []
               else
                 let cleaned := strip (msg.text.getD "")
                 if cleaned.trim = "" ∧ msg.files.isEmpty then []
                 else [.spawn .safeMessage]
         | _ => [])
    | _ => []

/-- Embedding of the per-envelope body of `_run_socket_loop`
(lines 2116-2184): an envelope whose `envelope_id` is a non-empty string
is acknowledged first (lines 2116-2120), then routed. -/
def processEnvelope (strip : String → String)
    (strCoerce : String → Option JObj) (chan : String)
    (botUserId : Option String) (env : JObj) : List LoopAction :=
  (match jget env "envelope_id" with
   | some (.jstr s) => if s ≠ "" then [LoopAction.ack s] else []
   | _ => []) ++ routeEnvelope strip strCoerce chan botUserId env

theorem routeEnvelope_no_ack (strip : String → String)
    (strCoerce : String → Option JObj) (chan : String)
    (botUserId : Option String) (env : JObj) :
    ∀ a ∈ routeEnvelope strip strCoerce chan botUserId env,
      ∀ s, a ≠ LoopAction.ack s := by
  intro a ha s
  unfold routeEnvelope at ha
  dsimp only at ha
  repeat' split at ha
  all_goals
    first
    | exact absurd ha (List.not_mem_nil a)
    | (simp only [List.mem_singleton] at ha; subst ha;
       exact fun h => LoopAction.noConfusion h)

/-- Embedding of `_safe_handle_slack_message` (`bridge.py` lines 942-955):
the handler body runs inside `try`/`except Exception`, which logs and
swallows any exception, so the task always finishes normally. -/
def safeHandleSlackMessage (body : Except String Unit) : Except String Unit :=
  match body with
  | .ok _ => .ok ()
  | .error _ => .ok ()

/-- Embedding of the boundary of `_handle_slash_command` (`bridge.py`
lines 1119-1402): the function body has no `try`/`except` at its scope, so
its outcome is the body's outcome. -/
def handleSlashCommand (body : Except String Unit) : Except String Unit :=
  body

/-- Embedding of the boundary of `_handle_interactive` (`bridge.py` lines
1405-1417): no `try`/`except` at its scope either. -/
def handleInteractive (body : Except String Unit) : Except String Unit :=
  body

/-- The outcome of one spawned handler task as the connection loop's task
group observes it, per handler kind. -/
def runSpawnedHandler : HandlerKind → Except String Unit → Except String Unit
  | .safeMessage, body => safeHandleSlackMessage body
  | .slashCommand, body => handleSlashCommand body
  | .interactive, body => handleInteractive body

/-! ## Outer reconnect loop of `_run_socket_loop` -/

/-- The outcome of one `open_socket_url` handshake call: `client.py` wraps
every failure mode (network errors, HTTP errors, bad payloads, missing
url) in `SlackApiError`, the only exception type the loop catches at
lines 2093-2098. -/
inductive HandshakeOutcome where
  | apiError (msg : String)
  | url (u : String)
deriving DecidableEq, Repr

/-- Observable events of the outer connect loop. -/
inductive OuterEvent where
  | openAttempt
  | sleepBackoff (d : Int)
  | connectSession (u : String)
deriving DecidableEq, Repr

/-- Embedding of `backoff_s = 1.0` (`bridge.py` line 2087), in whole
seconds. -/
def backoffS : Int := 1

/-- One iteration of the outer `while True` loop (`bridge.py` lines
2092-2190): a handshake failure is caught (`except SlackApiError`), logged
and followed by `await anyio.sleep(backoff_s)`; a successful handshake
runs a websocket session (abstracted as one event) and, once the session
ends, also sleeps the backoff before reconnecting (line 2190). -/
def openSocketStep : HandshakeOutcome → Except String (List OuterEvent)
  | .apiError _ => .ok [.openAttempt, .sleepBackoff backoffS]
  | .url u => .ok [.openAttempt, .connectSession u, .sleepBackoff backoffS]

/-- The outer loop run over a finite prefix of handshake outcomes; an
uncaught exception in an iteration would abort the whole loop
(`.error`). -/
def socketLoopRun : List HandshakeOutcome → Except String (List OuterEvent)
  | [] => .ok []
  | o :: rest =>
      match openSocketStep o with
      | .error e => .error e
      | .ok evs =>
          match socketLoopRun rest with
          | .error e => .error e
          | .ok more => .ok (evs ++ more)

/-! ## Claims C3, C4, C7: connection loop -/

/-- C3 counterexample: the loop spawns `_handle_slash_command` tasks
(here for a concrete `slash_commands` envelope), and an exception raised
inside such a task propagates out of the handler's own boundary into the
connection loop's task group, because only the plain-chat-message handler
is wrapped in a boundary `try`/`except`. -/
theorem handler_boundary_counterexample :
    routeEnvelope id (fun _ => none) "C1" none
        [("type", JVal.jstr "slash_commands"),
         ("payload", JVal.jobj [("channel_id", JVal.jstr "C1")])]
      = [LoopAction.spawn .slashCommand] ∧
    runSpawnedHandler .slashCommand (.error "boom") = .error "boom" ∧
    Except.error "boom" ≠ (Except.ok () : Except String Unit) :=
  ⟨rfl, rfl, fun h => Except.noConfusion h⟩

/-- C3 amended: an exception raised inside a plain-chat-message handler
task is caught at the handler's own boundary
(`_safe_handle_slack_message`) and the task completes normally; slash
command and interactive handler tasks have no boundary catch, so their
exceptions propagate into the connection loop's task group. -/
theorem handler_boundary_catch (e : String) :
    runSpawnedHandler .safeMessage (.error e) = .ok () ∧
    runSpawnedHandler .slashCommand (.error e) = .error e ∧
    runSpawnedHandler .interactive (.error e) = .error e :=
  ⟨rfl, rfl, rfl⟩

/-- C4: for every decoded envelope whose `envelope_id` is a non-empty
string, the loop body emits the acknowledgment frame echoing that id
first, before all type-based routing and handler dispatch, whatever the
envelope's type and payload; and the routing itself never emits an
acknowledgment. -/
theorem ack_before_processing (strip : String → String)
    (strCoerce : String → Option JObj) (chan : String)
    (botUserId : Option String) (env : JObj) (eid : String)
    (h1 : jget env "envelope_id" = some (JVal.jstr eid)) (h2 : eid ≠ "") :
    processEnvelope strip strCoerce chan botUserId env
      = LoopAction.ack eid :: routeEnvelope strip strCoerce chan botUserId env ∧
    ∀ a ∈ routeEnvelope strip strCoerce chan botUserId env,
      ∀ s, a ≠ LoopAction.ack s := by
  constructor
  · simp [processEnvelope, h1, h2]
  · exact routeEnvelope_no_ack strip strCoerce chan botUserId env

/-- C4 witness: a concrete `slash_commands` envelope with id `"E1"` is
acknowledged before its routing action. -/
theorem ack_before_processing_witness :
    processEnvelope id (fun _ => none) "C1" none
        [("envelope_id", JVal.jstr "E1"),
         ("type", JVal.jstr "slash_commands"),
         ("payload", JVal.jobj [])]
      = LoopAction.ack "E1" ::
          routeEnvelope id (fun _ => none) "C1" none
            [("envelope_id", JVal.jstr "E1"),
             ("type", JVal.jstr "slash_commands"),
             ("payload", JVal.jobj [])] :=
  (ack_before_processing id (fun _ => none) "C1" none
    [("envelope_id", JVal.jstr "E1"),
     ("type", JVal.jstr "slash_commands"),
     ("payload", JVal.jobj [])] "E1" rfl (by decide)).1

/-- C7: after `n` consecutive handshake failures the outer loop has made
exactly `n` open attempts, each followed by a backoff sleep of
`backoff_s = 1 ≥ 1` time unit before the next attempt, and no exception
escapes the loop (`SlackApiError` is caught every iteration); this holds
for every `n`, so there is no terminal failure state. -/
theorem reconnect_liveness (n : Nat) (m : String) :
    socketLoopRun (List.replicate n (.apiError m))
      = .ok (List.flatten
          (List.replicate n [OuterEvent.openAttempt, .sleepBackoff backoffS])) ∧
    (List.flatten
        (List.replicate n [OuterEvent.openAttempt, .sleepBackoff backoffS])).count
        .openAttempt = n ∧
    1 ≤ backoffS := by
  refine ⟨?_, ?_, le_refl 1⟩
  · induction n with
    | zero => rfl
    | succ k ih =>
        simp only [List.replicate_succ, socketLoopRun, openSocketStep, ih,
          List.flatten_cons]
  · induction n with
    | zero => rfl
    | succ k ih =>
        have h1 : ([OuterEvent.openAttempt,
            OuterEvent.sleepBackoff backoffS] : List OuterEvent).count
            OuterEvent.openAttempt = 1 := by decide
        rw [List.replicate_succ, List.flatten_cons, List.count_append, ih, h1]
        omega

end TakopiSlack
